import Mathlib

/-!
Shallow embedding of the multi-strategy search engine of
devsu88/build-your-own-search-engine: the `SearchEngine` class in
`app/search_engine.py` and the request validation / dispatch layer of the
`/search` endpoint in `app/main.py`, together with proofs about the
boost / filter / rank pipeline.

Modelling conventions.

A pandas record (one row of `self.df`) is an association list from field
name to string value (`Doc`); `doc.get(f, "")` is `getField`, and a field
missing from a record compares unequal to every filter value, matching the
pandas behaviour where a missing value (NaN) is `==`-unequal to any string.

Similarity values are exact rationals.  The floating point vectors produced
by the fitted `TfidfVectorizer`s and `cosine_similarity` enter the ranking
pipeline only as an abstract per-field score vector, so the fitted
vectorizer / matrix state installed by `fit` is represented inside the
engine state by an oracle `sim : field → query → score vector`, and the
per-call refitted `TruncatedSVD` / `NMF` / BERT similarity computations by
oracle arguments of the corresponding search functions.  The claims under
study are about the pipeline built around those library calls.  A separate
real-valued model of `sklearn.metrics.pairwise.cosine_similarity` (`dotl`,
`gnorm`, `cosineSim` below) is used for the claims about similarity signs.

`np.argsort` is used by the code with its default kind (quicksort), which
numpy documents as not stable; its contract fixes only that the returned
index list is a permutation of `range n` that orders the scores.  The
pipeline is therefore parameterized by the argsort implementation `A`,
constrained by `ValidArgsort`; `argsortStable` and `argsortAnti` are two
admissible implementations (differing only in tie order) used for concrete
evaluations.
-/

instance {ε α : Type} [DecidableEq ε] [DecidableEq α] : DecidableEq (Except ε α) := fun x y =>
  match x, y with
  | .ok a, .ok b =>
      if h : a = b then isTrue (by rw [h]) else isFalse (by intro hc; cases hc; exact h rfl)
  | .error a, .error b =>
      if h : a = b then isTrue (by rw [h]) else isFalse (by intro hc; cases hc; exact h rfl)
  | .ok _, .error _ => isFalse (by intro hc; cases hc)
  | .error _, .ok _ => isFalse (by intro hc; cases hc)

/-- One corpus record: field name → string value, metadata included. -/
abbrev Doc := List (String × String)

/-- Models `doc.get(f, "")` on a record dictionary. -/
def getField (d : Doc) (f : String) : String := (d.lookup f).getD ""

/-- Engine state: `text_fields`, `df` (None before `fit`), the fitted
vectorizers and term matrices abstracted as a per-field similarity oracle,
the fitted vocabulary sizes, and the BERT embedding store (None until
loaded or created). -/
structure Engine where
  textFields : List String
  df : Option (List Doc)
  sim : String → String → List ℚ
  vocabSize : String → Nat
  embeddings : Option (List (List ℚ))

/-- Models `fit`: stores `self.df = pd.DataFrame(records)`.  The fitted
vectorizers and matrices that `fit` also installs live behind the `sim`
and `vocabSize` components of the abstract state. -/
def fit (eng : Engine) (records : List Doc) : Engine :=
  { eng with df := some records }

/-- Models one step of the filter loop: `(df[field] == value)` for one
record, with a missing field behaving like NaN (never equal). -/
def matchesFilter (d : Doc) (fv : String × String) : Bool :=
  d.lookup fv.1 == some fv.2

/-- A record matching every filter entry (the spec notion of a record that
survives the filters). -/
def matchesAllFilters (d : Doc) (filters : List (String × String)) : Bool :=
  filters.all (fun fv => matchesFilter d fv)

/-- Models the filter loop of `search_tfidf` / `search_svd` / `search_bert`:
for each filter entry, `score = score * mask` with the 0/1 mask
`(df[field] == value).values`. -/
def applyFilterMask (docs : List Doc) : List (String × String) → List ℚ → List ℚ
  | [], score => score
  | fv :: fs, score =>
      applyFilterMask docs fs
        (List.zipWith (fun s d => if matchesFilter d fv then s else 0) score docs)

/-- Models the per-field scoring loop of `search_tfidf`:
`b = boost.get(f, 1.0); s = cosine_similarity(matrix_f, q); score = score + b * s`.
Generic in the scalar type so that it can be instantiated both with the
abstract rational similarity oracle and with the real-valued cosine model. -/
def lexScore {α : Type} [Ring α] (simv : String → List α) (boost : List (String × α)) :
    List String → List α → List α
  | [], score => score
  | f :: fs, score =>
      lexScore simv boost fs
        (List.zipWith (fun a c => a + ((boost.lookup f).getD 1) * c) score (simv f))

/-- Python slice `l[:n]` for an `int` bound `n` (negative bounds count from
the end, as in `np.argsort(-score)[:n_results]`). -/
def pyTake {α : Type} (n : Int) (l : List α) : List α :=
  if 0 ≤ n then l.take n.toNat else l.take (l.length - n.natAbs)

/-- Models lines shared by all four strategies:
`idx = np.argsort(-score)[:n_results]; results = self.df.iloc[idx];
results["score"] = score[idx]; return results.to_dict(orient="records")`,
with a record/score pair standing for the result dictionary. -/
def rankAndTake (A : List ℚ → List Nat) (docs : List Doc) (score : List ℚ)
    (nResults : Int) : List (Doc × ℚ) :=
  (pyTake nResults (A score)).map (fun i => (docs.getD i [], score.getD i 0))

/-- The `ValueError` message raised when `self.df is None`. -/
def fitError : String := "Devi prima chiamare fit() per preparare il motore"

/-- Models `SearchEngine.search_tfidf`. -/
def searchTfidf (A : List ℚ → List Nat) (eng : Engine) (query : String)
    (nResults : Int) (boost : List (String × ℚ)) (filters : List (String × String)) :
    Except String (List (Doc × ℚ)) :=
  match eng.df with
  | none => .error fitError
  | some docs =>
      let score := lexScore (fun f => eng.sim f query) boost eng.textFields
        (List.replicate docs.length 0)
      .ok (rankAndTake A docs (applyFilterMask docs filters score) nResults)

/-- Models `SearchEngine.search_svd`; `svdSim field n_components query` is
the flattened `cosine_similarity(X_emb, q_emb)` of the per-call refitted
`TruncatedSVD` (the solver output is an oracle argument, see header). -/
def searchSvd (A : List ℚ → List Nat) (svdSim : String → Int → String → List ℚ)
    (eng : Engine) (query : String) (field : String) (nComponents : Int)
    (nResults : Int) (filters : List (String × String)) :
    Except String (List (Doc × ℚ)) :=
  match eng.df with
  | none => .error fitError
  | some docs =>
      let score := svdSim field nComponents query
      .ok (rankAndTake A docs (applyFilterMask docs filters score) nResults)

/-- Models `SearchEngine.search_nmf`.  Faithful to the source: the `filters`
argument is accepted but never applied (the method has no filter loop). -/
def searchNmf (A : List ℚ → List Nat) (nmfSim : String → Int → String → List ℚ)
    (eng : Engine) (query : String) (field : String) (nComponents : Int)
    (nResults : Int) (filters : List (String × String)) :
    Except String (List (Doc × ℚ)) :=
  match eng.df with
  | none => .error fitError
  | some docs =>
      let score := nmfSim field nComponents query
      .ok (rankAndTake A docs score nResults)

/-- Models `SearchEngine.search_bert`; `bertSim embeddings query` is the
flattened `cosine_similarity(self.embeddings, query_emb)`.  The `field`
argument is accepted and ignored, as in the source. -/
def searchBert (A : List ℚ → List Nat) (bertSim : List (List ℚ) → String → List ℚ)
    (eng : Engine) (query : String) (field : String) (nResults : Int)
    (filters : List (String × String)) : Except String (List (Doc × ℚ)) :=
  match eng.embeddings with
  | none => .error "BERT embeddings non caricati. Usa load_bert_embeddings()"
  | some embs =>
      match eng.df with
      | none => .error fitError
      | some docs =>
          let score := bertSim embs query
          .ok (rankAndTake A docs (applyFilterMask docs filters score) nResults)

/-- Models `SearchEngine.get_available_methods`. -/
def getAvailableMethods (eng : Engine) : List String :=
  ["tfidf", "svd", "nmf"] ++ (if eng.embeddings.isSome then ["bert"] else [])

/-- Helper for the pandas `Series.unique` order: keep the first occurrence
of every value, in order of first appearance. -/
def uniqueFirstAux (seen : List String) : List String → List String
  | [] => []
  | a :: l => if a ∈ seen then uniqueFirstAux seen l else a :: uniqueFirstAux (a :: seen) l

/-- Models `self.df["course"].unique().tolist()`: distinct values in order
of first appearance. -/
def uniqueFirst (l : List String) : List String := uniqueFirstAux [] l

/-- Models `SearchEngine.get_available_courses`. -/
def getAvailableCourses (eng : Engine) : List String :=
  match eng.df with
  | none => []
  | some docs => uniqueFirst (docs.map (fun d => getField d "course"))

/-- The default `text_fields` of `SearchEngine.__init__` (also
`DEFAULT_TEXT_FIELDS` in `app/config.py`): the file registration order. -/
def defaultTextFields : List String := ["section", "question", "text"]

/-- Models the combined text of `create_bert_embeddings`, line 164:
the f-string interpolating `doc.get("text", "")`, `doc.get("question", "")`,
`doc.get("section", "")` separated by single spaces. -/
def combineFields (d : Doc) : String :=
  getField d "text" ++ " " ++ getField d "question" ++ " " ++ getField d "section"

/-- Models the embedding loop of `create_bert_embeddings`: one encoder call
on the combined text of every record, in corpus order (`encode` stands for
the BERT tokenizer / model / mean-pooling composite). -/
def createBertEmbeddings (encode : String → List ℚ) (docs : List Doc) : List (List ℚ) :=
  docs.map (fun d => encode (combineFields d))

/-- Space-separated concatenation (the f-string builds exactly this shape). -/
def joinSpace : List String → String
  | [] => ""
  | [x] => x
  | x :: l => x ++ " " ++ joinSpace l

/-- Modelled from the claim wording, for comparison with `combineFields`:
the concatenation of all configured text fields in file registration order
(`section`, then `question`, then `text`), separated by whitespace. -/
def specCombineFields (d : Doc) : String :=
  joinSpace (defaultTextFields.map (fun f => getField d f))

/-- Search request as validated by the `/search` endpoint of `app/main.py`
(`SearchRequest` pydantic model, defaults included). -/
structure SearchRequest where
  query : String
  method : String := "tfidf"
  nResults : Int := 10
  boost : List (String × ℚ) := []
  filters : List (String × String) := []
  field : String := "text"
  nComponents : Int := 16

/-- Models the falsiness test `not request.query.strip()`: a Python string
strips to the empty string exactly when every character is whitespace. -/
def isBlank (s : String) : Bool := s.data.all (fun c => c.isWhitespace)

/-- Models the `try/except` of the endpoint: an engine `ValueError` becomes
an HTTP 500, a successful list is returned as the response payload. -/
def wrapEngine (r : Except String (List (Doc × ℚ))) :
    Except (Nat × String) (List (Doc × ℚ)) :=
  match r with
  | .ok v => .ok v
  | .error e => .error (500, "Errore durante la ricerca: " ++ e)

/-- Models the `/search` endpoint of `app/main.py`: input validation
(`query`, `n_results`, `n_components`), then dispatch on the method string,
including the BERT availability check. -/
def searchEndpoint (A : List ℚ → List Nat)
    (svdSim nmfSim : String → Int → String → List ℚ)
    (bertSim : List (List ℚ) → String → List ℚ)
    (eng : Engine) (req : SearchRequest) : Except (Nat × String) (List (Doc × ℚ)) :=
  if isBlank req.query then .error (400, "La query non può essere vuota")
  else if req.nResults ≤ 0 ∨ 100 < req.nResults then
    .error (400, "n_results deve essere tra 1 e 100")
  else if (req.method = "svd" ∨ req.method = "nmf") ∧
      (req.nComponents ≤ 0 ∨ 100 < req.nComponents) then
    .error (400, "n_components deve essere tra 1 e 100")
  else if req.method = "tfidf" then
    wrapEngine (searchTfidf A eng req.query req.nResults req.boost req.filters)
  else if req.method = "svd" then
    wrapEngine (searchSvd A svdSim eng req.query req.field req.nComponents
      req.nResults req.filters)
  else if req.method = "nmf" then
    wrapEngine (searchNmf A nmfSim eng req.query req.field req.nComponents
      req.nResults req.filters)
  else if req.method = "bert" then
    if "bert" ∉ getAvailableMethods eng then
      .error (400, "Metodo BERT non disponibile. Gli embeddings non sono stati caricati correttamente.")
    else
      wrapEngine (searchBert A bertSim eng req.query req.field req.nResults req.filters)
  else .error (400, "Metodo non supportato: " ++ req.method)

/-- The contract of `np.argsort` on the negated scores, applied to a score
vector: a permutation of all record indices along which the scores are
non-increasing.  Tie order is deliberately unconstrained (numpy documents
the default quicksort as not stable). -/
def isArgsortDesc (s : List ℚ) (idx : List Nat) : Prop :=
  idx.Perm (List.range s.length) ∧
    List.Sorted (fun a b : ℚ => b ≤ a) (idx.map (fun i => s.getD i 0))

/-- An argsort implementation satisfying the `np.argsort` contract on every
input. -/
def ValidArgsort (A : List ℚ → List Nat) : Prop := ∀ s, isArgsortDesc s (A s)

/-- Index comparison by descending score with an explicit tie relation. -/
def argRel (s : List ℚ) (tie : Nat → Nat → Bool) (i j : Nat) : Bool :=
  decide (s.getD j 0 < s.getD i 0) || (decide (s.getD i 0 = s.getD j 0) && tie i j)

/-- Insertion-sort based argsort with a chosen tie order. -/
def argsortWith (tie : Nat → Nat → Bool) (s : List ℚ) : List Nat :=
  List.insertionSort (fun i j => argRel s tie i j = true) (List.range s.length)

/-- An admissible argsort breaking ties by ascending original index. -/
def argsortStable : List ℚ → List Nat := argsortWith (fun i j => decide (i ≤ j))

/-- An admissible argsort breaking ties by descending original index. -/
def argsortAnti : List ℚ → List Nat := argsortWith (fun i j => decide (j ≤ i))

/-- Dot product of two real vectors (rows are dense float vectors in the
source; floats are modelled by reals). -/
def dotl (u v : List ℝ) : ℝ := (List.zipWith (fun a b => a * b) u v).sum

/-- Models the guarded row norm used inside
`sklearn.metrics.pairwise.cosine_similarity` (its `normalize` step replaces
a zero norm by 1, so a zero vector gets similarity 0 rather than NaN). -/
noncomputable def gnorm (u : List ℝ) : ℝ :=
  if dotl u u = 0 then 1 else Real.sqrt (dotl u u)

/-- Models `cosine_similarity` on one row pair. -/
noncomputable def cosineSim (u v : List ℝ) : ℝ := dotl u v / (gnorm u * gnorm v)

/-- Models `cosine_similarity(M, q).flatten()`: the similarity of the query
vector against every row of a matrix, in row order (the Score Vector shape
of the SVD / NMF / BERT strategies, and of one field of the lexical one). -/
noncomputable def latentScore (rows : List (List ℝ)) (q : List ℝ) : List ℝ :=
  rows.map (fun r => cosineSim r q)

/-- The lexical Score Vector of `search_tfidf` over the real-valued cosine
model: the per-field loop of `search_engine.py` with `cosine_similarity`
spelled out instead of kept as an oracle. -/
noncomputable def tfidfScoreR (fields : List String) (mats : String → List (List ℝ))
    (qv : String → List ℝ) (boost : List (String × ℝ)) (n : Nat) : List ℝ :=
  lexScore (fun f => latentScore (mats f) (qv f)) boost fields (List.replicate n 0)


/-- Two tiny metadata-only records used for concrete evaluations. -/
def docA : Doc := [("course", "A")]

/-- See `docA`. -/
def docB : Doc := [("course", "B")]

/-- A record carrying the three configured text fields, for the combined
text evaluations. -/
def docSQT : Doc := [("section", "S"), ("question", "Q"), ("text", "T")]

/-- A fitted two-record engine whose lexical oracle scores record 0 higher
than record 1. -/
def engAB : Engine :=
  { textFields := ["text"], df := some [docA, docB],
    sim := fun _ _ => [2, 1], vocabSize := fun _ => 10, embeddings := none }

/-- A fitted two-record engine whose lexical oracle gives both records the
same score. -/
def engTie : Engine :=
  { textFields := ["text"], df := some [docA, docB],
    sim := fun _ _ => [2, 2], vocabSize := fun _ => 10, embeddings := none }

/-- An engine on which `fit` has not been called. -/
def engUnfit : Engine :=
  { textFields := defaultTextFields, df := none,
    sim := fun _ _ => [], vocabSize := fun _ => 0, embeddings := none }

/-- Two engines agreeing on the fitted ranking state (`text_fields`, `df`,
vectorizers and matrices) but differing elsewhere. -/
def engC6a : Engine :=
  { textFields := ["text"], df := some [docA, docB],
    sim := fun _ _ => [2, 1], vocabSize := fun _ => 3, embeddings := none }

/-- See `engC6a`. -/
def engC6b : Engine :=
  { textFields := ["text"], df := some [docA, docB],
    sim := fun _ _ => [2, 1], vocabSize := fun _ => 7, embeddings := some [[1]] }

/-- A constant latent similarity oracle for concrete SVD / NMF evaluations. -/
def oracleAB : String → Int → String → List ℚ := fun _ _ _ => [2, 1]

/-- A constant BERT similarity oracle for concrete evaluations. -/
def bertOracleAB : List (List ℚ) → String → List ℚ := fun _ _ => [2, 1]

theorem argRel_total (s : List ℚ) (tie : Nat → Nat → Bool)
    (htot : ∀ i j, tie i j = true ∨ tie j i = true) (i j : Nat) :
    argRel s tie i j = true ∨ argRel s tie j i = true := by
  simp only [argRel, Bool.or_eq_true, Bool.and_eq_true, decide_eq_true_eq]
  rcases lt_trichotomy (s.getD i 0) (s.getD j 0) with h | h | h
  · right; left; exact h
  · rcases htot i j with ht | ht
    · left; right; exact ⟨h, ht⟩
    · right; right; exact ⟨h.symm, ht⟩
  · left; left; exact h

theorem argRel_trans (s : List ℚ) (tie : Nat → Nat → Bool)
    (htr : ∀ a b c, tie a b = true → tie b c = true → tie a c = true) (a b c : Nat)
    (h1 : argRel s tie a b = true) (h2 : argRel s tie b c = true) :
    argRel s tie a c = true := by
  simp only [argRel, Bool.or_eq_true, Bool.and_eq_true, decide_eq_true_eq] at h1 h2 ⊢
  rcases h1 with h1 | ⟨h1, t1⟩
  · rcases h2 with h2 | ⟨h2, _⟩
    · left; exact h2.trans h1
    · left; exact h2 ▸ h1
  · rcases h2 with h2 | ⟨h2, t2⟩
    · left; rw [h1]; exact h2
    · right; exact ⟨h1.trans h2, htr a b c t1 t2⟩

theorem validArgsort_argsortWith (tie : Nat → Nat → Bool)
    (htot : ∀ i j, tie i j = true ∨ tie j i = true)
    (htr : ∀ a b c, tie a b = true → tie b c = true → tie a c = true) :
    ValidArgsort (argsortWith tie) := by
  intro s
  refine ⟨List.perm_insertionSort _ _, ?_⟩
  have hs : List.Sorted (fun i j => argRel s tie i j = true) (argsortWith tie s) := by
    letI : IsTotal Nat (fun i j => argRel s tie i j = true) := ⟨argRel_total s tie htot⟩
    letI : IsTrans Nat (fun i j => argRel s tie i j = true) := ⟨argRel_trans s tie htr⟩
    exact List.sorted_insertionSort _ _
  refine List.pairwise_map.mpr (hs.imp ?_)
  intro a b h
  simp only [argRel, Bool.or_eq_true, Bool.and_eq_true, decide_eq_true_eq] at h
  rcases h with h | ⟨h, _⟩
  · exact le_of_lt h
  · exact le_of_eq h.symm

theorem validArgsort_stable : ValidArgsort argsortStable := by
  apply validArgsort_argsortWith
  · intro i j
    rcases Nat.le_total i j with h | h
    · left; exact decide_eq_true h
    · right; exact decide_eq_true h
  · intro a b c h1 h2
    exact decide_eq_true (Nat.le_trans (of_decide_eq_true h1) (of_decide_eq_true h2))

theorem validArgsort_anti : ValidArgsort argsortAnti := by
  apply validArgsort_argsortWith
  · intro i j
    rcases Nat.le_total j i with h | h
    · left; exact decide_eq_true h
    · right; exact decide_eq_true h
  · intro a b c h1 h2
    exact decide_eq_true (Nat.le_trans (of_decide_eq_true h2) (of_decide_eq_true h1))

theorem applyFilterMask_length (docs : List Doc) (filters : List (String × String))
    (score : List ℚ) (h : score.length = docs.length) :
    (applyFilterMask docs filters score).length = docs.length := by
  induction filters generalizing score with
  | nil => exact h
  | cons fv fs ih =>
      simp only [applyFilterMask]
      exact ih _ (by simp [h])

theorem lexScore_length {α : Type} [Ring α] (simv : String → List α)
    (boost : List (String × α)) (fields : List String) (score : List α)
    (h : ∀ f, (simv f).length = score.length) :
    (lexScore simv boost fields score).length = score.length := by
  induction fields generalizing score with
  | nil => rfl
  | cons f fs ih =>
      simp only [lexScore]
      have hz : (List.zipWith (fun a c => a + ((boost.lookup f).getD 1) * c)
          score (simv f)).length = score.length := by
        simp [h f]
      rw [ih _ (fun g => (h g).trans hz.symm), hz]

theorem rankAndTake_length (A : List ℚ → List Nat) (hA : ValidArgsort A)
    (docs : List Doc) (score : List ℚ) (k : Int) (hk : 0 ≤ k) :
    (rankAndTake A docs score k).length = min k.toNat score.length := by
  have hlen : (A score).length = score.length :=
    ((hA score).1.length_eq).trans (List.length_range _)
  simp [rankAndTake, pyTake, hk, hlen]

theorem rankAndTake_length_le (A : List ℚ → List Nat) (docs : List Doc)
    (score : List ℚ) (k : Int) (hk : 0 ≤ k) :
    (rankAndTake A docs score k).length ≤ k.toNat := by
  simp only [rankAndTake, pyTake, if_pos hk, List.length_map]
  exact le_trans (List.length_take_le _ _) le_rfl

theorem rankAndTake_sorted (A : List ℚ → List Nat) (hA : ValidArgsort A)
    (docs : List Doc) (score : List ℚ) (k : Int) :
    List.Sorted (fun a b : ℚ => b ≤ a) ((rankAndTake A docs score k).map Prod.snd) := by
  have h2 := (hA score).2
  have hmap : (rankAndTake A docs score k).map Prod.snd
      = (pyTake k (A score)).map (fun i => score.getD i 0) := by
    simp [rankAndTake, List.map_map, Function.comp]
  rw [hmap]
  have hsub : List.Sublist (pyTake k (A score)) (A score) := by
    unfold pyTake; split <;> exact List.take_sublist _ _
  exact List.Pairwise.sublist (hsub.map _) h2

theorem rankAndTake_covers (A : List ℚ → List Nat) (hA : ValidArgsort A)
    (docs : List Doc) (score : List ℚ) (k : Int)
    (hs : score.length = docs.length) (hk : docs.length ≤ k.toNat)
    (d : Doc) (hd : d ∈ docs) : d ∈ (rankAndTake A docs score k).map Prod.fst := by
  obtain ⟨i, hi, hget⟩ := List.mem_iff_getElem.mp hd
  have hlen : (A score).length = score.length :=
    ((hA score).1.length_eq).trans (List.length_range _)
  have hkpos : 0 ≤ k := by
    rcases Int.le_total 0 k with h | h
    · exact h
    · exfalso
      have : k.toNat = 0 := Int.toNat_of_nonpos h
      omega
  have hfull : pyTake k (A score) = A score := by
    unfold pyTake
    rw [if_pos hkpos]
    exact List.take_of_length_le (by omega)
  have hmem : i ∈ A score :=
    ((hA score).1.mem_iff).mpr (List.mem_range.mpr (by omega))
  have hmapfst : (rankAndTake A docs score k).map Prod.fst
      = (pyTake k (A score)).map (fun i => docs.getD i []) := by
    simp [rankAndTake, List.map_map, Function.comp]
  rw [hmapfst, hfull]
  refine List.mem_map.mpr ⟨i, hmem, ?_⟩
  rw [List.getD_eq_getElem docs [] hi]
  exact hget

/-- Every element of a zipWith comes from a pair of elements. -/
theorem mem_zipWith {α β γ : Type} {f : α → β → γ} {l1 : List α} {l2 : List β} {x : γ}
    (hx : x ∈ List.zipWith f l1 l2) : ∃ a ∈ l1, ∃ b ∈ l2, x = f a b := by
  induction l1 generalizing l2 with
  | nil => simp at hx
  | cons a t ih =>
      cases l2 with
      | nil => simp at hx
      | cons b t2 =>
          rcases List.mem_cons.mp hx with h | h
          · exact ⟨a, List.mem_cons_self a t, b, List.mem_cons_self b t2, h⟩
          · obtain ⟨a2, ha, b2, hb, hx2⟩ := ih h
            exact ⟨a2, List.mem_cons_of_mem a ha, b2, List.mem_cons_of_mem b hb, hx2⟩

/-- A successful lookup returns a stored pair. -/
theorem lookup_mem {α β : Type} [BEq α] [LawfulBEq α] {l : List (α × β)} {a : α} {b : β}
    (h : l.lookup a = some b) : (a, b) ∈ l := by
  induction l with
  | nil => simp [List.lookup] at h
  | cons p t ih =>
      obtain ⟨k, v⟩ := p
      simp only [List.lookup] at h
      by_cases hk : a == k
      · rw [hk] at h
        simp only [Option.some.injEq] at h
        rw [eq_of_beq hk, h]
        exact List.mem_cons_self _ _
      · rw [Bool.not_eq_true] at hk
        rw [hk] at h
        exact List.mem_cons_of_mem _ (ih h)

theorem dotl_self_nonneg (u : List ℝ) : 0 ≤ dotl u u := by
  induction u with
  | nil => simp [dotl]
  | cons a t ih =>
      have h : dotl (a :: t) (a :: t) = a * a + dotl t t := by simp [dotl]
      rw [h]
      exact add_nonneg (mul_self_nonneg a) ih

theorem dotl_nonneg {u v : List ℝ} (hu : ∀ x ∈ u, 0 ≤ x) (hv : ∀ x ∈ v, 0 ≤ x) :
    0 ≤ dotl u v := by
  apply List.sum_nonneg
  intro x hx
  obtain ⟨a, ha, b, hb, rfl⟩ := mem_zipWith hx
  exact mul_nonneg (hu a ha) (hv b hb)

theorem gnorm_pos (u : List ℝ) : 0 < gnorm u := by
  unfold gnorm
  split
  · norm_num
  · rename_i h
    exact Real.sqrt_pos.mpr (lt_of_le_of_ne (dotl_self_nonneg u) (Ne.symm h))

theorem cosineSim_nonneg {u v : List ℝ} (hu : ∀ x ∈ u, 0 ≤ x) (hv : ∀ x ∈ v, 0 ≤ x) :
    0 ≤ cosineSim u v :=
  div_nonneg (dotl_nonneg hu hv) (mul_pos (gnorm_pos u) (gnorm_pos v)).le

theorem lexScore_nonneg {simv : String → List ℝ} {boost : List (String × ℝ)}
    (fields : List String) (score : List ℝ)
    (hsim : ∀ f, ∀ x ∈ simv f, 0 ≤ x) (hb : ∀ p ∈ boost, 0 ≤ p.2)
    (hsc : ∀ x ∈ score, 0 ≤ x) : ∀ x ∈ lexScore simv boost fields score, 0 ≤ x := by
  induction fields generalizing score with
  | nil => simpa [lexScore] using hsc
  | cons f fs ih =>
      intro x hx
      simp only [lexScore] at hx
      refine ih _ ?_ x hx
      intro y hy
      obtain ⟨a, ha, c, hc, rfl⟩ := mem_zipWith hy
      have hbf : 0 ≤ (boost.lookup f).getD 1 := by
        cases hlk : boost.lookup f with
        | none => norm_num
        | some b => exact hb _ (lookup_mem hlk)
      exact add_nonneg (hsc a ha) (mul_nonneg hbf (hsim f c hc))

/-- A 200 response carries exactly the engine result. -/
theorem wrapEngine_ok {x : Except String (List (Doc × ℚ))} {r : List (Doc × ℚ)}
    (h : wrapEngine x = .ok r) : x = .ok r := by
  cases x with
  | ok v => simpa [wrapEngine] using h
  | error e => simp [wrapEngine] at h

/-- The bert method is listed exactly when the embedding store is loaded. -/
theorem bert_available_iff (eng : Engine) :
    "bert" ∈ getAvailableMethods eng ↔ eng.embeddings.isSome := by
  cases h : eng.embeddings <;> simp [getAvailableMethods, h]

theorem uniqueFirstAux_mem (l : List String) : ∀ (seen : List String) (c : String),
    c ∈ uniqueFirstAux seen l ↔ (c ∈ l ∧ c ∉ seen) := by
  induction l with
  | nil => intro seen c; simp [uniqueFirstAux]
  | cons a t ih =>
      intro seen c
      by_cases ha : a ∈ seen
      · rw [uniqueFirstAux, if_pos ha, ih]
        constructor
        · rintro ⟨h1, h2⟩
          exact ⟨List.mem_cons_of_mem a h1, h2⟩
        · rintro ⟨h1, h2⟩
          rcases List.mem_cons.mp h1 with rfl | h1
          · exact absurd ha h2
          · exact ⟨h1, h2⟩
      · rw [uniqueFirstAux, if_neg ha]
        constructor
        · intro h
          rcases List.mem_cons.mp h with rfl | h
          · exact ⟨List.mem_cons_self _ _, ha⟩
          · obtain ⟨h1, h2⟩ := (ih _ c).mp h
            exact ⟨List.mem_cons_of_mem a h1, fun hc => h2 (List.mem_cons_of_mem a hc)⟩
        · rintro ⟨h1, h2⟩
          rcases List.mem_cons.mp h1 with rfl | h1
          · exact List.mem_cons_self _ _
          · by_cases hca : c = a
            · rw [hca]; exact List.mem_cons_self _ _
            · refine List.mem_cons_of_mem _ ((ih _ c).mpr ⟨h1, ?_⟩)
              intro hc
              rcases List.mem_cons.mp hc with h | h
              · exact hca h
              · exact h2 h

theorem uniqueFirstAux_nodup (l : List String) : ∀ seen, (uniqueFirstAux seen l).Nodup := by
  induction l with
  | nil => intro seen; simp [uniqueFirstAux]
  | cons a t ih =>
      intro seen
      by_cases ha : a ∈ seen
      · rw [uniqueFirstAux, if_pos ha]; exact ih seen
      · rw [uniqueFirstAux, if_neg ha]
        refine List.nodup_cons.mpr ⟨?_, ih _⟩
        intro hmem
        exact ((uniqueFirstAux_mem t (a :: seen) a).mp hmem).2 (List.mem_cons_self _ _)

/-- Adding a field whose boost is 0 leaves the accumulated score unchanged. -/
theorem zipWith_zero_boost {α : Type} [Ring α] (score s : List α)
    (h : score.length ≤ s.length) :
    List.zipWith (fun a c => a + (0 : α) * c) score s = score := by
  induction score generalizing s with
  | nil => simp
  | cons a t ih =>
      cases s with
      | nil => simp at h
      | cons b t2 =>
          have h2 : t.length ≤ t2.length := by simpa using h
          rw [show List.zipWith (fun a c => a + (0 : α) * c) (a :: t) (b :: t2)
              = (a + 0 * b) :: List.zipWith (fun a c => a + (0 : α) * c) t t2 from rfl,
            zero_mul, add_zero, ih t2 h2]

/-- Dropping every occurrence of a zero-boost field from the field list
leaves the lexical Score Vector unchanged. -/
theorem lexScore_filter_zero {α : Type} [Ring α] (simv : String → List α)
    (boost : List (String × α)) (f0 : String) (fields : List String)
    (score : List α) (n : Nat)
    (hb : boost.lookup f0 = some 0)
    (hlen : ∀ f ∈ fields, (simv f).length = n) (hsc : score.length = n) :
    lexScore simv boost fields score
      = lexScore simv boost (fields.filter (fun f => f != f0)) score := by
  induction fields generalizing score with
  | nil => rfl
  | cons f fs ih =>
      by_cases hf : f = f0
      · have hl0 : (simv f0).length = n := hf ▸ hlen f (List.mem_cons_self _ _)
        have hstep : List.zipWith (fun a c => a + ((boost.lookup f).getD 1) * c)
            score (simv f) = score := by
          rw [hf, hb, Option.getD_some]
          exact zipWith_zero_boost _ _ (le_of_eq (hsc.trans hl0.symm))
        have hfilter : ((f :: fs).filter (fun g => g != f0))
            = fs.filter (fun g => g != f0) := by
          simp [List.filter_cons, hf]
        rw [hfilter, lexScore, hstep]
        exact ih score (fun g hg => hlen g (List.mem_cons_of_mem f hg)) hsc
      · have hfilter : ((f :: fs).filter (fun g => g != f0))
            = f :: fs.filter (fun g => g != f0) := by
          simp [List.filter_cons, hf]
        rw [hfilter, lexScore, lexScore]
        have hlen2 : (List.zipWith (fun a c => a + ((boost.lookup f).getD 1) * c)
            score (simv f)).length = n := by
          simp [hsc, hlen f (List.mem_cons_self _ _)]
        exact ih _ (fun g hg => hlen g (List.mem_cons_of_mem f hg)) hlen2

/-- Result shape of the shared ranking tail: exact length, and full corpus
coverage when the requested count reaches the corpus size. -/
theorem rankAndTake_conclusion (A : List ℚ → List Nat) (hA : ValidArgsort A)
    (docs : List Doc) (score : List ℚ) (k : Int) (hk : 0 ≤ k)
    (hscore : score.length = docs.length) :
    (rankAndTake A docs score k).length = min k.toNat docs.length ∧
      (docs.length ≤ k.toNat → ∀ d ∈ docs,
        d ∈ (rankAndTake A docs score k).map Prod.fst) := by
  constructor
  · rw [rankAndTake_length A hA docs score k hk, hscore]
  · intro hcov d hd
    exact rankAndTake_covers A hA docs score k hscore hcov d hd

/-- C1: the claim that, for every strategy, a record failing a filter entry
never appears in the returned Result is false on the code, and the code
side is the slip: `app/config.py` declares `supports_filters: True` for the
nmf method and `test_backend.py` passes filters to `search_nmf`, yet
`search_nmf` ignores its `filters` argument (it has no mask loop).  On a
two-record corpus with courses A and B and `filters = {course: B}`, the
course-A record is returned first, at full score, by the NMF strategy; the
masking strategies also return the filtered record (with score 0) once `k`
reaches the corpus size, as the `search_tfidf` conjunct shows. -/
theorem C1_filtered_record_appears :
    searchNmf argsortStable oracleAB engAB "q" "text" 16 2 [("course", "B")]
      = .ok [(docA, 2), (docB, 1)] ∧
    searchTfidf argsortStable engAB "q" 2 [] [("course", "B")]
      = .ok [(docB, 1), (docA, 0)] ∧
    matchesAllFilters docA [("course", "B")] = false := by
  refine ⟨?_, ?_, by decide⟩
  · simp [searchNmf, engAB, oracleAB, rankAndTake, argsortStable, argsortWith, argRel,
      List.insertionSort, List.orderedInsert, pyTake, docA, docB]
  · simp [searchTfidf, engAB, lexScore, applyFilterMask, rankAndTake, matchesFilter,
      argsortStable, argsortWith, argRel, List.insertionSort, List.orderedInsert,
      pyTake, docA, docB, List.lookup]
    all_goals norm_num

/-- C4 (amended): the HTTP layer of `app/main.py` rejects every request with
`n_results <= 0` (any method, non-blank query) with a 400 invalid-parameter
error before dispatching to any strategy; the engine-level ranking methods
themselves perform no such validation (see the counterexample). -/
theorem C4_api_rejects_nonpositive_k (A : List ℚ → List Nat)
    (svdSim nmfSim : String → Int → String → List ℚ)
    (bertSim : List (List ℚ) → String → List ℚ) (eng : Engine) (req : SearchRequest)
    (hq : isBlank req.query = false) (hk : req.nResults ≤ 0) :
    searchEndpoint A svdSim nmfSim bertSim eng req
      = .error (400, "n_results deve essere tra 1 e 100") := by
  unfold searchEndpoint
  rw [hq]
  simp [hk]

/-- C4 witness: concrete rejected request with k = 0. -/
theorem C4_api_rejects_nonpositive_k_witness :
    searchEndpoint argsortStable oracleAB oracleAB bertOracleAB engAB
      { query := "q", nResults := 0 }
      = .error (400, "n_results deve essere tra 1 e 100") :=
  C4_api_rejects_nonpositive_k _ _ _ _ _ _ (by decide) (by decide)

/-- C4 counterexample: the engine-level ranking call does not fail for
k <= 0: `search_tfidf` with k = 0 scores the corpus and returns an empty
result list, and with k = -1 returns all but the last ranked record
(Python slice semantics), instead of raising an invalid-parameter error
before any computation. -/
theorem C4_engine_accepts_nonpositive_k_counterexample :
    searchTfidf argsortStable engAB "q" 0 [] [] = .ok [] ∧
    searchTfidf argsortStable engAB "q" (-1) [] [] = .ok [(docA, 2)] := by
  constructor <;>
    simp [searchTfidf, engAB, lexScore, applyFilterMask, rankAndTake, argsortStable,
      argsortWith, argRel, List.insertionSort, List.orderedInsert, pyTake, docA, docB]

/-- C5 (amended): `create_bert_embeddings` computes one embedding per record
from the whitespace-joined concatenation of the configured text fields in
REVERSE file registration order (`text`, then `question`, then `section`),
not in registration order. -/
theorem C5_combined_text_reverse_of_registration (encode : String → List ℚ)
    (docs : List Doc) :
    createBertEmbeddings encode docs
      = docs.map (fun d => encode (joinSpace
          ((defaultTextFields.reverse).map (fun f => getField d f)))) := by
  unfold createBertEmbeddings
  have h : ∀ d : Doc, combineFields d
      = joinSpace ((defaultTextFields.reverse).map (fun f => getField d f)) := by
    intro d
    simp [combineFields, defaultTextFields, joinSpace, String.append_assoc]
  simp [h]

/-- C5 counterexample: on a record with section S, question Q, text T the
code passes the string T Q S to the encoder, while the claim requires the
registration-order concatenation S Q T, so the embedding store is computed
from different encoder inputs than claimed. -/
theorem C5_registration_order_counterexample :
    combineFields docSQT = "T Q S" ∧
    specCombineFields docSQT = "S Q T" ∧
    combineFields docSQT ≠ specCombineFields docSQT ∧
    createBertEmbeddings (fun s => if s = specCombineFields docSQT then [1] else [0])
      [docSQT] = [[0]] := by
  refine ⟨by decide, by decide, by decide, by decide⟩

/-- C6: ranking is a pure function of the fitted index state, the query and
the call parameters: lexical or SVD calls on engines that agree on the
fitted ranking state (`text_fields`, `df`, and the fitted
vectorizer/matrix similarity oracle) return identical results, whatever
the remaining state components are; no search method mutates the engine,
so this covers repeated calls on one engine, and the SVD conjunct holds
for a fixed solver outcome (the claim itself limits SVD determinism to
solver tolerance). -/
theorem C6_ranking_pure_function (A : List ℚ → List Nat)
    (svdSim : String → Int → String → List ℚ) (e1 e2 : Engine)
    (q fld : String) (k nc : Int) (boost : List (String × ℚ))
    (filters : List (String × String))
    (hf : e1.textFields = e2.textFields) (hd : e1.df = e2.df) (hs : e1.sim = e2.sim) :
    searchTfidf A e1 q k boost filters = searchTfidf A e2 q k boost filters ∧
    searchSvd A svdSim e1 q fld nc k filters
      = searchSvd A svdSim e2 q fld nc k filters := by
  constructor
  · unfold searchTfidf
    simp only [hf, hd, hs]
  · unfold searchSvd
    simp only [hd]

/-- C6 witness: two engines differing in vocabulary-size and embedding
state but agreeing on the fitted ranking state give identical results. -/
theorem C6_ranking_pure_function_witness :
    searchTfidf argsortStable engC6a "q" 2 [] []
      = searchTfidf argsortStable engC6b "q" 2 [] [] ∧
    searchSvd argsortStable oracleAB engC6a "q" "text" 16 2 []
      = searchSvd argsortStable oracleAB engC6b "q" "text" 16 2 [] :=
  C6_ranking_pure_function argsortStable oracleAB engC6a engC6b "q" "text" 2 16 [] []
    rfl rfl rfl

/-- C9: in the lexical strategy each configured field cosine-similarity
vector is multiplied by its boost weight (default 1.0 when absent) and the
weighted vectors are summed, so setting one field boost to 0 makes the
Score Vector equal the weighted sum over the remaining fields: dropping
the zero-boost field from the field list does not change the result. -/
theorem C9_zero_boost_excludes_field (mats : String → List (List ℝ))
    (qv : String → List ℝ) (boost : List (String × ℝ)) (fields : List String)
    (f0 : String) (n : Nat)
    (hb : boost.lookup f0 = some 0)
    (hlen : ∀ f ∈ fields, (mats f).length = n) :
    tfidfScoreR fields mats qv boost n
      = tfidfScoreR (fields.filter (fun f => f != f0)) mats qv boost n := by
  unfold tfidfScoreR
  exact lexScore_filter_zero _ boost f0 fields _ n hb
    (fun f hf => by simp [latentScore, hlen f hf]) (by simp)

/-- C9 witness: concrete two-field instance with the section boost set
to 0. -/
theorem C9_zero_boost_excludes_field_witness :
    tfidfScoreR ["section", "text"] (fun _ => [[1]]) (fun _ => [1]) [("section", 0)] 1
      = tfidfScoreR (["section", "text"].filter (fun f => f != "section"))
          (fun _ => [[1]]) (fun _ => [1]) [("section", 0)] 1 :=
  C9_zero_boost_excludes_field _ _ _ _ "section" 1 rfl (fun f hf => rfl)

/-- C10: querying the distinct category values on an engine that has not
been fitted returns the empty list rather than raising; after `fit` the
distinct values of the course metadata field are returned (no duplicates,
membership matching the fitted records). -/
theorem C10_available_courses (engU : Engine) (eng : Engine) (recs : List Doc)
    (h : engU.df = none) :
    getAvailableCourses engU = [] ∧
    (getAvailableCourses (fit eng recs)).Nodup ∧
    (∀ c, c ∈ getAvailableCourses (fit eng recs)
        ↔ c ∈ recs.map (fun d => getField d "course")) := by
  refine ⟨?_, ?_, ?_⟩
  · unfold getAvailableCourses
    rw [h]
  · show (uniqueFirst (recs.map (fun d => getField d "course"))).Nodup
    exact uniqueFirstAux_nodup _ _
  · intro c
    show c ∈ uniqueFirstAux [] (recs.map (fun d => getField d "course")) ↔ _
    rw [uniqueFirstAux_mem]
    simp

/-- C10 witness: an unfitted engine yields an empty course list; after
fitting three records with a duplicated course the distinct values are
returned. -/
theorem C10_available_courses_witness :
    getAvailableCourses engUnfit = [] ∧
    (getAvailableCourses (fit engUnfit [docA, docB, docA])).Nodup ∧
    ("A" ∈ getAvailableCourses (fit engUnfit [docA, docB, docA])
      ↔ "A" ∈ [docA, docB, docA].map (fun d => getField d "course")) :=
  ⟨(C10_available_courses engUnfit engUnfit [docA, docB, docA] rfl).1,
   (C10_available_courses engUnfit engUnfit [docA, docB, docA] rfl).2.1,
   (C10_available_courses engUnfit engUnfit [docA, docB, docA] rfl).2.2 "A"⟩

theorem searchTfidf_none {A : List ℚ → List Nat} {eng : Engine} {query : String}
    {k : Int} {boost : List (String × ℚ)} {filters : List (String × String)}
    (hdf : eng.df = none) :
    searchTfidf A eng query k boost filters = .error fitError := by
  unfold searchTfidf
  rw [hdf]

theorem searchTfidf_ok {A : List ℚ → List Nat} {eng : Engine} {query : String}
    {k : Int} {boost : List (String × ℚ)} {filters : List (String × String)}
    {docs : List Doc} {r : List (Doc × ℚ)}
    (hdf : eng.df = some docs)
    (h : searchTfidf A eng query k boost filters = .ok r) :
    r = rankAndTake A docs (applyFilterMask docs filters
      (lexScore (fun f => eng.sim f query) boost eng.textFields
        (List.replicate docs.length 0))) k := by
  unfold searchTfidf at h
  rw [hdf] at h
  simp only [Except.ok.injEq] at h
  exact h.symm

theorem searchSvd_none {A : List ℚ → List Nat}
    {svdSim : String → Int → String → List ℚ} {eng : Engine} {query fld : String}
    {nc k : Int} {filters : List (String × String)} (hdf : eng.df = none) :
    searchSvd A svdSim eng query fld nc k filters = .error fitError := by
  unfold searchSvd
  rw [hdf]

theorem searchSvd_ok {A : List ℚ → List Nat}
    {svdSim : String → Int → String → List ℚ} {eng : Engine} {query fld : String}
    {nc k : Int} {filters : List (String × String)} {docs : List Doc}
    {r : List (Doc × ℚ)} (hdf : eng.df = some docs)
    (h : searchSvd A svdSim eng query fld nc k filters = .ok r) :
    r = rankAndTake A docs (applyFilterMask docs filters (svdSim fld nc query)) k := by
  unfold searchSvd at h
  rw [hdf] at h
  simp only [Except.ok.injEq] at h
  exact h.symm

theorem searchNmf_none {A : List ℚ → List Nat}
    {nmfSim : String → Int → String → List ℚ} {eng : Engine} {query fld : String}
    {nc k : Int} {filters : List (String × String)} (hdf : eng.df = none) :
    searchNmf A nmfSim eng query fld nc k filters = .error fitError := by
  unfold searchNmf
  rw [hdf]

theorem searchNmf_ok {A : List ℚ → List Nat}
    {nmfSim : String → Int → String → List ℚ} {eng : Engine} {query fld : String}
    {nc k : Int} {filters : List (String × String)} {docs : List Doc}
    {r : List (Doc × ℚ)} (hdf : eng.df = some docs)
    (h : searchNmf A nmfSim eng query fld nc k filters = .ok r) :
    r = rankAndTake A docs (nmfSim fld nc query) k := by
  unfold searchNmf at h
  rw [hdf] at h
  simp only [Except.ok.injEq] at h
  exact h.symm

theorem searchBert_ok {A : List ℚ → List Nat}
    {bertSim : List (List ℚ) → String → List ℚ} {eng : Engine} {query fld : String}
    {k : Int} {filters : List (String × String)} {docs : List Doc}
    {embs : List (List ℚ)} {r : List (Doc × ℚ)}
    (hemb : eng.embeddings = some embs) (hdf : eng.df = some docs)
    (h : searchBert A bertSim eng query fld k filters = .ok r) :
    r = rankAndTake A docs (applyFilterMask docs filters (bertSim embs query)) k := by
  unfold searchBert at h
  rw [hemb, hdf] at h
  simp only [Except.ok.injEq] at h
  exact h.symm

theorem searchBert_cases {A : List ℚ → List Nat}
    {bertSim : List (List ℚ) → String → List ℚ} {eng : Engine} {query fld : String}
    {k : Int} {filters : List (String × String)} {r : List (Doc × ℚ)}
    (h : searchBert A bertSim eng query fld k filters = .ok r) :
    ∃ embs docs, eng.embeddings = some embs ∧ eng.df = some docs ∧
      r = rankAndTake A docs (applyFilterMask docs filters (bertSim embs query)) k := by
  cases hemb : eng.embeddings with
  | none => unfold searchBert at h; rw [hemb] at h; exact absurd h (by simp)
  | some embs =>
      cases hdf : eng.df with
      | none =>
          unfold searchBert at h
          rw [hemb, hdf] at h
          exact absurd h (by simp)
      | some docs =>
          exact ⟨embs, docs, rfl, rfl, searchBert_ok hemb hdf h⟩

/-- C2 (amended): for every strategy dispatched through the endpoint, the
returned Result has length `min(k, |Corpus|)` regardless of the filters
(a filtered-out record is zero-scored, not removed, and `search_nmf`
ignores filters altogether), and when `k` reaches the corpus size every
record of the corpus appears in the Result (so `k` larger than the corpus
returns all records, as the claim says). -/
theorem C2_result_length (A : List ℚ → List Nat)
    (svdSim nmfSim : String → Int → String → List ℚ)
    (bertSim : List (List ℚ) → String → List ℚ) (eng : Engine) (req : SearchRequest)
    (docs : List Doc) (r : List (Doc × ℚ))
    (hA : ValidArgsort A) (hdf : eng.df = some docs)
    (hsim : ∀ f q, (eng.sim f q).length = docs.length)
    (hsvd : ∀ f nc q, (svdSim f nc q).length = docs.length)
    (hnmf : ∀ f nc q, (nmfSim f nc q).length = docs.length)
    (hbert : ∀ e q, (bertSim e q).length = docs.length)
    (hok : searchEndpoint A svdSim nmfSim bertSim eng req = .ok r) :
    r.length = min req.nResults.toNat docs.length ∧
      (docs.length ≤ req.nResults.toNat → ∀ d ∈ docs, d ∈ r.map Prod.fst) := by
  unfold searchEndpoint at hok
  split_ifs at hok with h1 h2 h3 h4 h5 h6 h7 h8
  · push_neg at h2
    have hx := searchTfidf_ok hdf (wrapEngine_ok hok)
    have hlex : (lexScore (fun f => eng.sim f req.query) req.boost eng.textFields
        (List.replicate docs.length 0)).length = docs.length := by
      rw [lexScore_length _ _ _ _ (fun f => by rw [hsim, List.length_replicate])]
      exact List.length_replicate _ _
    rw [hx]
    exact rankAndTake_conclusion A hA docs _ req.nResults (le_of_lt h2.1)
      (applyFilterMask_length _ _ _ hlex)
  · push_neg at h2
    have hx := searchSvd_ok hdf (wrapEngine_ok hok)
    rw [hx]
    exact rankAndTake_conclusion A hA docs _ req.nResults (le_of_lt h2.1)
      (applyFilterMask_length _ _ _ (hsvd _ _ _))
  · push_neg at h2
    have hx := searchNmf_ok hdf (wrapEngine_ok hok)
    rw [hx]
    exact rankAndTake_conclusion A hA docs _ req.nResults (le_of_lt h2.1) (hnmf _ _ _)
  · push_neg at h2
    obtain ⟨embs, docs2, hemb, hdf2, hx⟩ := searchBert_cases (wrapEngine_ok hok)
    rw [hdf] at hdf2
    obtain rfl : docs = docs2 := (Option.some.injEq _ _).mp hdf2
    rw [hx]
    exact rankAndTake_conclusion A hA docs _ req.nResults (le_of_lt h2.1)
      (applyFilterMask_length _ _ _ (hbert _ _))

/-- C3 (amended): for every strategy dispatched through the endpoint the
Result is sorted non-increasing by score and truncated to at most `k`
entries; the tie order among equal scores is NOT guaranteed to be the
ascending original corpus order, because `np.argsort` is called with its
default quicksort, which numpy documents as unstable (see the
counterexample for an admissible tie inversion). -/
theorem C3_sorted_and_truncated (A : List ℚ → List Nat)
    (svdSim nmfSim : String → Int → String → List ℚ)
    (bertSim : List (List ℚ) → String → List ℚ) (eng : Engine) (req : SearchRequest)
    (r : List (Doc × ℚ)) (hA : ValidArgsort A)
    (hok : searchEndpoint A svdSim nmfSim bertSim eng req = .ok r) :
    List.Sorted (fun a b : ℚ => b ≤ a) (r.map Prod.snd) ∧
      r.length ≤ req.nResults.toNat := by
  unfold searchEndpoint at hok
  split_ifs at hok with h1 h2 h3 h4 h5 h6 h7 h8
  · push_neg at h2
    cases hdf : eng.df with
    | none =>
        exact absurd ((searchTfidf_none hdf).symm.trans (wrapEngine_ok hok))
          (fun hc => Except.noConfusion hc)
    | some docs =>
        rw [searchTfidf_ok hdf (wrapEngine_ok hok)]
        exact ⟨rankAndTake_sorted A hA docs _ _,
          rankAndTake_length_le A docs _ _ (le_of_lt h2.1)⟩
  · push_neg at h2
    cases hdf : eng.df with
    | none =>
        exact absurd ((searchSvd_none hdf).symm.trans (wrapEngine_ok hok))
          (fun hc => Except.noConfusion hc)
    | some docs =>
        rw [searchSvd_ok hdf (wrapEngine_ok hok)]
        exact ⟨rankAndTake_sorted A hA docs _ _,
          rankAndTake_length_le A docs _ _ (le_of_lt h2.1)⟩
  · push_neg at h2
    cases hdf : eng.df with
    | none =>
        exact absurd ((searchNmf_none hdf).symm.trans (wrapEngine_ok hok))
          (fun hc => Except.noConfusion hc)
    | some docs =>
        rw [searchNmf_ok hdf (wrapEngine_ok hok)]
        exact ⟨rankAndTake_sorted A hA docs _ _,
          rankAndTake_length_le A docs _ _ (le_of_lt h2.1)⟩
  · push_neg at h2
    obtain ⟨embs, docs, hemb, hdf, hx⟩ := searchBert_cases (wrapEngine_ok hok)
    rw [hx]
    exact ⟨rankAndTake_sorted A hA docs _ _,
      rankAndTake_length_le A docs _ _ (le_of_lt h2.1)⟩

/-- C2 witness: concrete tfidf request with k = 1 on a two-record corpus. -/
theorem C2_result_length_witness :
    searchEndpoint argsortStable oracleAB oracleAB bertOracleAB engAB
      { query := "q", nResults := 1 } = .ok [(docA, 2)] ∧
    List.length [(docA, (2 : ℚ))] = min ((1 : Int).toNat) (List.length [docA, docB]) ∧
    (List.length [docA, docB] ≤ (1 : Int).toNat →
      ∀ d ∈ [docA, docB], d ∈ [(docA, (2 : ℚ))].map Prod.fst) := by
  have hok : searchEndpoint argsortStable oracleAB oracleAB bertOracleAB engAB
      { query := "q", nResults := 1 } = .ok [(docA, 2)] := by
    simp [searchEndpoint, isBlank, wrapEngine, searchTfidf, engAB, lexScore,
      applyFilterMask, rankAndTake, matchesFilter, argsortStable, argsortWith, argRel,
      List.insertionSort, List.orderedInsert, pyTake, docA, docB, List.lookup, oracleAB]
  have h := C2_result_length argsortStable oracleAB oracleAB bertOracleAB engAB
    { query := "q", nResults := 1 } [docA, docB] [(docA, 2)] validArgsort_stable rfl
    (fun f q => rfl) (fun f nc q => rfl) (fun f nc q => rfl) (fun e q => rfl) hok
  exact ⟨hok, h.1, h.2⟩

/-- C2 counterexample: with a filter matching a single record and k = 2 the
endpoint returns 2 results (the filtered-out record reappears with score
0), while the claim requires min(k, matching-record-count) = 1. -/
theorem C2_min_matching_count_counterexample :
    searchEndpoint argsortStable oracleAB oracleAB bertOracleAB engAB
      { query := "q", nResults := 2, filters := [("course", "B")] }
      = .ok [(docB, 1), (docA, 0)] ∧
    ([docA, docB].filter (fun d => matchesAllFilters d [("course", "B")])).length = 1 ∧
    List.length [(docB, (1 : ℚ)), (docA, (0 : ℚ))] ≠ min 2 1 := by
  refine ⟨?_, by decide, by decide⟩
  simp [searchEndpoint, isBlank, wrapEngine, searchTfidf, engAB, lexScore,
    applyFilterMask, rankAndTake, matchesFilter, argsortStable, argsortWith, argRel,
    List.insertionSort, List.orderedInsert, pyTake, docA, docB, List.lookup, oracleAB]
  all_goals norm_num

/-- C3 witness: concrete tfidf request with k = 2, distinct scores. -/
theorem C3_sorted_and_truncated_witness :
    searchEndpoint argsortStable oracleAB oracleAB bertOracleAB engAB
      { query := "q", nResults := 2 } = .ok [(docA, 2), (docB, 1)] ∧
    List.Sorted (fun a b : ℚ => b ≤ a)
      ([(docA, (2 : ℚ)), (docB, (1 : ℚ))].map Prod.snd) ∧
    List.length [(docA, (2 : ℚ)), (docB, (1 : ℚ))] ≤ (2 : Int).toNat := by
  have hok : searchEndpoint argsortStable oracleAB oracleAB bertOracleAB engAB
      { query := "q", nResults := 2 } = .ok [(docA, 2), (docB, 1)] := by
    simp [searchEndpoint, isBlank, wrapEngine, searchTfidf, engAB, lexScore,
      applyFilterMask, rankAndTake, matchesFilter, argsortStable, argsortWith, argRel,
      List.insertionSort, List.orderedInsert, pyTake, docA, docB, List.lookup, oracleAB]
  have h := C3_sorted_and_truncated argsortStable oracleAB oracleAB bertOracleAB engAB
    { query := "q", nResults := 2 } [(docA, 2), (docB, 1)] validArgsort_stable hok
  exact ⟨hok, h.1, h.2⟩

/-- C3 counterexample: `argsortAnti` satisfies the full `np.argsort`
contract — the only tie behaviour the unstable default quicksort
guarantees — yet under it the lexical search on two records with equal
scores returns the record with original index 1 before the record with
index 0, violating the claimed ascending tie order. -/
theorem C3_stable_tie_counterexample :
    ValidArgsort argsortAnti ∧
    searchTfidf argsortAnti engTie "q" 2 [] [] = .ok [(docB, 2), (docA, 2)] ∧
    docB ≠ docA := by
  refine ⟨validArgsort_anti, ?_, by decide⟩
  simp [searchTfidf, engTie, lexScore, applyFilterMask, rankAndTake, argsortAnti,
    argsortWith, argRel, List.insertionSort, List.orderedInsert, pyTake, docA, docB]

/-- C7 (amended): Score Vector entries are non-negative for the lexical
strategy (cosine similarity of the non-negative TF-IDF vectors, with
non-negative boosts) and for any strategy whose latent rows and projected
query are non-negative (the NMF case); the SVD and BERT spaces contain
negative coordinates, where cosine similarity can be negative (see the
counterexample). -/
theorem C7_score_nonneg_lexical_nmf (fields : List String)
    (mats : String → List (List ℝ)) (qv : String → List ℝ)
    (boost : List (String × ℝ)) (n : Nat) (rows : List (List ℝ)) (q : List ℝ)
    (hm : ∀ f, ∀ row ∈ mats f, ∀ x ∈ row, 0 ≤ x)
    (hq : ∀ f, ∀ x ∈ qv f, 0 ≤ x)
    (hb : ∀ p ∈ boost, 0 ≤ p.2)
    (hrows : ∀ row ∈ rows, ∀ x ∈ row, 0 ≤ x)
    (hq2 : ∀ x ∈ q, 0 ≤ x) :
    (∀ x ∈ tfidfScoreR fields mats qv boost n, 0 ≤ x) ∧
    (∀ x ∈ latentScore rows q, 0 ≤ x) := by
  constructor
  · unfold tfidfScoreR
    apply lexScore_nonneg
    · intro f x hx
      obtain ⟨row, hrow, rfl⟩ := List.mem_map.mp hx
      exact cosineSim_nonneg (hm f row hrow) (hq f)
    · exact hb
    · intro x hx
      rw [List.eq_of_mem_replicate hx]
  · intro x hx
    obtain ⟨row, hrow, rfl⟩ := List.mem_map.mp hx
    exact cosineSim_nonneg (hrows row hrow) hq2

/-- C7 witness: one-field, one-record instance with non-negative data. -/
theorem C7_score_nonneg_witness :
    (∀ x ∈ tfidfScoreR ["text"] (fun _ => [[1]]) (fun _ => [1]) [] 1, 0 ≤ x) ∧
    (∀ x ∈ latentScore [[1]] [1], 0 ≤ x) :=
  C7_score_nonneg_lexical_nmf ["text"] (fun _ => [[1]]) (fun _ => [1]) [] 1 [[1]] [1]
    (by intro f row hrow x hx; simp at hrow; rw [hrow] at hx; simp at hx; rw [hx]; norm_num)
    (by intro f x hx; simp at hx; rw [hx]; norm_num)
    (by intro p hp; simp at hp)
    (by intro row hrow x hx; simp at hrow; rw [hrow] at hx; simp at hx; rw [hx]; norm_num)
    (by intro x hx; simp at hx; rw [hx]; norm_num)

/-- C7 counterexample: a latent row with a negative coordinate (permitted
for the SVD dense representation, and occurring in BERT embeddings) yields
a strictly negative Score Vector entry. -/
theorem C7_negative_score_counterexample :
    latentScore [[-1]] [1] = [-1] ∧ ((-1 : ℝ) < 0) := by
  have h1 : dotl [(-1 : ℝ)] [(1 : ℝ)] = -1 := by simp [dotl]
  have h2 : dotl [(-1 : ℝ)] [(-1 : ℝ)] = 1 := by simp [dotl]
  have h3 : dotl [(1 : ℝ)] [(1 : ℝ)] = 1 := by simp [dotl]
  have hg1 : gnorm [(-1 : ℝ)] = 1 := by
    unfold gnorm
    rw [h2, if_neg (by norm_num), Real.sqrt_one]
  have hg2 : gnorm [(1 : ℝ)] = 1 := by
    unfold gnorm
    rw [h3, if_neg (by norm_num), Real.sqrt_one]
  have hc : cosineSim [(-1 : ℝ)] [1] = -1 := by
    unfold cosineSim
    rw [h1, hg1, hg2]
    norm_num
  exact ⟨by simp [latentScore, hc], by norm_num⟩

/-- C8 (amended): for the factorization strategies the only rank validation
in the codebase is the API bound 1 <= n_components <= 100 of
`app/main.py`, applied before dispatch; a rank outside that fixed range is
rejected with a 400 invalid-parameter error.  Neither layer compares the
rank to the vocabulary size of the chosen field (see the counterexample),
and no InvalidRankError exists. -/
theorem C8_rank_checked_against_fixed_range (A : List ℚ → List Nat)
    (svdSim nmfSim : String → Int → String → List ℚ)
    (bertSim : List (List ℚ) → String → List ℚ) (eng : Engine) (req : SearchRequest)
    (hq : isBlank req.query = false)
    (hk1 : 0 < req.nResults) (hk2 : req.nResults ≤ 100)
    (hm : req.method = "svd" ∨ req.method = "nmf")
    (hr : req.nComponents ≤ 0 ∨ 100 < req.nComponents) :
    searchEndpoint A svdSim nmfSim bertSim eng req
      = .error (400, "n_components deve essere tra 1 e 100") := by
  have h2 : ¬(req.nResults ≤ 0 ∨ 100 < req.nResults) := by omega
  have h3 : (req.method = "svd" ∨ req.method = "nmf") ∧
      (req.nComponents ≤ 0 ∨ 100 < req.nComponents) := ⟨hm, hr⟩
  unfold searchEndpoint
  rw [hq]
  simp [h2, h3]

/-- C8 witness: a request with rank 0 is rejected before dispatch. -/
theorem C8_rank_checked_against_fixed_range_witness :
    searchEndpoint argsortStable oracleAB oracleAB bertOracleAB engAB
      { query := "q", method := "svd", nResults := 2, nComponents := 0 }
      = .error (400, "n_components deve essere tra 1 e 100") :=
  C8_rank_checked_against_fixed_range _ _ _ _ _ _ (by decide) (by decide) (by decide)
    (Or.inl rfl) (Or.inl (by decide))

/-- C8 counterexample: a rank of 50 on a field whose fitted vocabulary has
10 terms passes validation and the NMF strategy computes a full result
instead of failing with an InvalidRankError before the decomposition. -/
theorem C8_no_vocabulary_bound_counterexample :
    engAB.vocabSize "text" = 10 ∧ (10 < 50) ∧
    searchEndpoint argsortStable oracleAB oracleAB bertOracleAB engAB
      { query := "q", method := "nmf", nResults := 2, nComponents := 50 }
      = .ok [(docA, 2), (docB, 1)] := by
  refine ⟨rfl, by decide, ?_⟩
  simp [searchEndpoint, isBlank, wrapEngine, searchNmf, engAB, rankAndTake,
    argsortStable, argsortWith, argRel, List.insertionSort, List.orderedInsert,
    pyTake, docA, docB, oracleAB]
